import Mathlib

/-!
Verification of the zvec vector-collection service and its web UI.

The repository ships the browser UI (`src/ui/src/app/page.tsx`) together with a
README describing the REST service that wraps the zvec in-process vector store.
The core collection service itself (the FastAPI `app.py` and the zvec store) is
not part of the shown sources, so the core is modelled here directly from the
specification; the UI helpers are embedded from `page.tsx`.

Vectors are modelled over `ℚ`, metadata as JSON-like values, and the store as an
association list from ids to documents.
-/

namespace Zvec

/-- A JSON-like tagged value: the metadata representation and the durable
snapshot representation.  Mirrors the spec's "tagged union of
scalar/string/array/object variants". -/
inductive Json where
  | null : Json
  | bool (b : Bool) : Json
  | num (q : ℚ) : Json
  | str (s : String) : Json
  | arr (xs : List Json) : Json
  | obj (fields : List (String × Json)) : Json

/-- Metadata: an optional mapping from string keys to JSON-like values. -/
def Metadata : Type := List (String × Json)

/-- Modelled from the spec: a stored document — unique `id`, fixed-dimension
`vector`, opaque optional `metadata` (§3 Data Model). -/
structure Document where
  id : String
  vector : List ℚ
  metadata : Option Metadata

/-- The spec's error taxonomy (§7). -/
inductive ZErr where
  | DimensionMismatchError : ZErr
  | DuplicateIdError : ZErr
  | NotFoundError : ZErr
  | CorruptStateError : ZErr
deriving DecidableEq

/-- Modelled from the spec: the collection state owned by the Document Store —
the `dimension` (none while `UNINITIALIZED`, fixed on first write) and the
mapping from id to document, kept as an association list (§3, §4.1). -/
structure Store where
  dimension : Option Nat
  docs : List Document

/-- The empty (`UNINITIALIZED`) collection. -/
def emptyStore : Store := ⟨none, []⟩

/-- `document_count`: the number of live documents (§3). -/
def documentCount (st : Store) : Nat := st.docs.length

/-- Whether a live document with the given id exists. -/
def hasId (st : Store) (i : String) : Bool := st.docs.any (fun d => d.id == i)

/-- Modelled from the spec: `get(id) → Document | not found` (§4.1). -/
def get (st : Store) (i : String) : Option Document :=
  st.docs.find? (fun d => d.id == i)

/-- Modelled from the spec: `insert(vector, metadata, id?) → id` of the missing
Document Store (§4.1).  If `id` is omitted the generated token `fresh` is used;
the insert fails with `DuplicateIdError` if the resolved id already exists, and
with `DimensionMismatchError` if the vector length differs from the dimension;
the first document fixes `dimension := len(vector)`. -/
def insert (st : Store) (v : List ℚ) (md : Option Metadata)
    (oid : Option String) (fresh : String) : Except ZErr (String × Store) :=
  if hasId st (oid.getD fresh) then .error .DuplicateIdError
  else
    match st.dimension with
    | none =>
      .ok (oid.getD fresh, ⟨some v.length, ⟨oid.getD fresh, v, md⟩ :: st.docs⟩)
    | some d =>
      if v.length = d then
        .ok (oid.getD fresh, ⟨some d, ⟨oid.getD fresh, v, md⟩ :: st.docs⟩)
      else .error .DimensionMismatchError

/-- Modelled from the spec: `delete(id) → success | NotFoundError`; deleting an
absent id is reported as not-found, never as success (§4.1). -/
def delete (st : Store) (i : String) : Except ZErr Store :=
  if hasId st i then
    .ok ⟨st.dimension, st.docs.eraseP (fun d => d.id == i)⟩
  else .error .NotFoundError

/-- Modelled from the spec: `clear()` removes all documents and resets the
dimension (§4.1). -/
def clear (_st : Store) : Store := emptyStore

/-- One entry of a `batch_insert` request: vector, metadata, optional
caller-supplied id, and the token the id generator would produce for it. -/
structure InsertReq where
  vector : List ℚ
  metadata : Option Metadata
  id : Option String
  fresh : String

/-- Modelled from the spec: `batch_insert` applies `insert` to each entry with
partial-failure semantics — a failing entry is reported individually and the
remaining entries still apply (§4.1, §7). -/
def batchInsert (st : Store) : List InsertReq → Store × List (Except ZErr String)
  | [] => (st, [])
  | r :: rs =>
    match insert st r.vector r.metadata r.id r.fresh with
    | .ok (i, st') =>
      let p := batchInsert st' rs
      (p.1, .ok i :: p.2)
    | .error e =>
      let p := batchInsert st rs
      (p.1, .error e :: p.2)

/-- A sequence of single inserts, stopping at the first failure; used to state
the durability claim about "N successful inserts". -/
def applyInserts : Store → List InsertReq → Except ZErr Store
  | st, [] => .ok st
  | st, r :: rs =>
    match insert st r.vector r.metadata r.id r.fresh with
    | .ok (_, st') => applyInserts st' rs
    | .error e => .error e

/-- Squared Euclidean distance between a query and a stored vector: the spec's
suggested exact metric, ascending = more similar (§4.2). -/
def sqDist (q v : List ℚ) : ℚ :=
  (List.zipWith (fun a b => (a - b) * (a - b)) q v).sum

/-- A search hit: id, score, metadata copied verbatim (§3). -/
structure SearchResult where
  id : String
  score : ℚ
  metadata : Option Metadata

/-- Scoring one document against the query. -/
def scoreOf (q : List ℚ) (d : Document) : SearchResult :=
  ⟨d.id, sqDist q d.vector, d.metadata⟩

/-- The ranking order: score ascending, ties broken deterministically by
document id, lexicographic (§4.2). -/
def rLE (a b : SearchResult) : Prop :=
  a.score < b.score ∨ (a.score = b.score ∧ a.id ≤ b.id)

/-- The strict version of the ranking order: between results with distinct ids
it orders strictly. -/
def sKey (a b : SearchResult) : Prop :=
  a.score < b.score ∨ (a.score = b.score ∧ a.id < b.id)

instance : DecidableRel rLE := fun a b =>
  inferInstanceAs (Decidable (a.score < b.score ∨ (a.score = b.score ∧ a.id ≤ b.id)))

instance : IsTotal SearchResult rLE := by
  constructor
  intro a b
  rcases lt_trichotomy a.score b.score with h | h | h
  · exact Or.inl (Or.inl h)
  · rcases le_total a.id b.id with h2 | h2
    · exact Or.inl (Or.inr ⟨h, h2⟩)
    · exact Or.inr (Or.inr ⟨h.symm, h2⟩)
  · exact Or.inr (Or.inl h)

instance : IsTrans SearchResult rLE := by
  constructor
  intro a b c hab hbc
  rcases hab with h1 | ⟨h1, h1'⟩
  · rcases hbc with h2 | ⟨h2, _⟩
    · exact Or.inl (h1.trans h2)
    · exact Or.inl (h2 ▸ h1)
  · rcases hbc with h2 | ⟨h2, h2'⟩
    · exact Or.inl (h1 ▸ h2)
    · exact Or.inr ⟨h1.trans h2, h1'.trans h2'⟩

instance : IsAntisymm SearchResult sKey := by
  constructor
  intro a b hab hba
  exfalso
  rcases hab with h1 | ⟨h1, h1'⟩ <;> rcases hba with h2 | ⟨h2, h2'⟩
  · exact lt_asymm h1 h2
  · exact absurd (h2 ▸ h1) (lt_irrefl _)
  · exact absurd (h1 ▸ h2) (lt_irrefl _)
  · exact lt_asymm h1' h2'

/-- All documents scored against the query and sorted by the ranking order. -/
def rankAll (q : List ℚ) (docs : List Document) : List SearchResult :=
  List.insertionSort rLE (docs.map (scoreOf q))

/-- Modelled from the spec: the Ranking Engine / `search` operation of the
façade (§4.2, §4.4).  An `UNINITIALIZED` or empty collection yields an empty
result sequence rather than an error; otherwise a query of the wrong length
fails with `DimensionMismatchError`, and a matching query returns the top-k
results, score ascending with ties broken by id. -/
def search (st : Store) (q : List ℚ) (k : Nat) : Except ZErr (List SearchResult) :=
  match st.dimension with
  | none => .ok []
  | some d =>
    if st.docs.isEmpty then .ok []
    else if q.length = d then .ok ((rankAll q st.docs).take k)
    else .error .DimensionMismatchError

/-- Encoding of the dimension into the durable snapshot. -/
def encodeDim : Option Nat → Json
  | none => .null
  | some d => .num (d : ℚ)

/-- Decoding of the dimension from the durable snapshot. -/
def decodeDim : Json → Except ZErr (Option Nat)
  | .null => .ok none
  | .num q => if ((q.num.toNat : ℚ) = q) then .ok (some q.num.toNat) else .error .CorruptStateError
  | _ => .error .CorruptStateError

/-- Encoding of optional metadata into the durable snapshot. -/
def encodeMeta : Option Metadata → Json
  | none => .null
  | some m => .obj m

/-- Decoding of optional metadata from the durable snapshot. -/
def decodeMeta : Json → Except ZErr (Option Metadata)
  | .null => .ok none
  | .obj m => .ok (some m)
  | _ => .error .CorruptStateError

/-- Decoding of a vector (a JSON array of numbers). -/
def decodeNums : List Json → Except ZErr (List ℚ)
  | [] => .ok []
  | .num q :: js => do
    let qs ← decodeNums js
    .ok (q :: qs)
  | _ :: _ => .error .CorruptStateError

/-- Encoding of one document into the durable snapshot. -/
def encodeDoc (d : Document) : Json :=
  .arr [.str d.id, .arr (d.vector.map .num), encodeMeta d.metadata]

/-- Decoding of one document from the durable snapshot. -/
def decodeDoc : Json → Except ZErr Document
  | .arr [.str i, .arr jv, jm] => do
    let v ← decodeNums jv
    let m ← decodeMeta jm
    .ok ⟨i, v, m⟩
  | _ => .error .CorruptStateError

/-- Decoding of the document list from the durable snapshot. -/
def decodeDocs : List Json → Except ZErr (List Document)
  | [] => .ok []
  | j :: js => do
    let d ← decodeDoc j
    let ds ← decodeDocs js
    .ok (d :: ds)

/-- Modelled from the spec: the Persistence Manager's `persist` — a durable
representation of the full document set plus dimension; the exact encoding is
an implementation choice as long as it round-trips losslessly (§4.3, §6). -/
def persist (st : Store) : Json :=
  .arr [encodeDim st.dimension, .arr (st.docs.map encodeDoc)]

/-- Modelled from the spec: the Persistence Manager's `load`, called at service
start; fails with `CorruptStateError` if the durable representation cannot be
parsed (§4.3). -/
def load : Json → Except ZErr Store
  | .arr [jd, .arr js] => do
    let dim ← decodeDim jd
    let docs ← decodeDocs js
    .ok ⟨dim, docs⟩
  | _ => .error .CorruptStateError

/-- Well-formedness of a collection state: every stored vector has length equal
to the fixed dimension, and ids are unique. -/
def Wf (st : Store) : Prop :=
  (∀ d ∈ st.docs, st.dimension = some d.vector.length) ∧
  (st.docs.map Document.id).Nodup

/-- The collection states reachable by the service's operations, starting from
the empty collection: single inserts, batch inserts, deletes and clears.
Reloading a snapshot persisted by the service itself re-creates the same state
(see the durability round-trip), so it adds no further states. -/
inductive Reachable : Store → Prop where
  | init : Reachable emptyStore
  | insert_ok {st st' : Store} {v md oid fresh i} :
      Reachable st → insert st v md oid fresh = .ok (i, st') → Reachable st'
  | batch_ok {st : Store} {items : List InsertReq} :
      Reachable st → Reachable (batchInsert st items).1
  | delete_ok {st st' : Store} {i} :
      Reachable st → delete st i = .ok st' → Reachable st'
  | cleared {st : Store} : Reachable st → Reachable (clear st)

end Zvec

namespace ZvecUI

/-- The UI's status banner kinds (`page.tsx`, `status` state). -/
inductive StatusType where
  | success : StatusType
  | error : StatusType
  | info : StatusType
deriving DecidableEq

/-- A status banner: type plus message (`page.tsx` line 33). -/
structure StatusMsg where
  type : StatusType
  message : String
deriving DecidableEq

/-- Outcome of `await response.json()` on an `ok` response: either the parsed
value or a thrown `SyntaxError` carrying a message. -/
inductive OkBody (T : Type) where
  | parsed (t : T) : OkBody T
  | parseFailed (msg : String) : OkBody T

/-- Outcome of `await response.json()` on a non-`ok` response as used by
`apiCall`: the parse may fail (the `.catch` substitutes `{detail: 'Unknown
error'}`), or parse to a body whose `detail` field is a string or absent. -/
inductive ErrBody where
  | parseFailed : ErrBody
  | parsedDetail (detail : Option String) : ErrBody

/-- The environment-determined outcome of the `fetch` call inside `apiCall`:
the promise rejects (with an `Error` carrying a message, or a non-`Error`
value), or a response arrives with `ok` or non-`ok` HTTP status. -/
inductive FetchOutcome (T : Type) where
  | netFailure (errMsg : Option String) : FetchOutcome T
  | okResponse (body : OkBody T) : FetchOutcome T
  | errResponse (status : Nat) (body : ErrBody) : FetchOutcome T

/-- What `apiCall` leaves behind: its return value, the final `status` banner,
and the final `loading` flag. -/
structure ApiOutcome (T : Type) where
  result : Option T
  status : Option StatusMsg
  loading : Bool

/-- The error message `apiCall` throws for a non-ok response: the parsed
body's `detail` field when it is a non-empty string, the text "HTTP " followed
by the status code when `detail` is absent or falsy, and "Unknown error" (the
`.catch` substitute body's `detail`) when the error body does not parse
(`page.tsx` 62-64). -/
def errorText (status : Nat) : ErrBody → String
  | .parseFailed => "Unknown error"
  | .parsedDetail (some d) => if d = "" then "HTTP " ++ toString status else d
  | .parsedDetail none => "HTTP " ++ toString status

/-- Embedded from `page.tsx` 48-73: the `apiCall` helper.  `setLoading(true)`
and `setStatus(null)` run first; the `try` block either returns the parsed
body, or throws (network failure, non-ok status, or unparsable body); the
`catch` sets an error status (`err.message` when the thrown value is an
`Error`, `'Request failed'` otherwise) and returns `null`; the `finally` resets
`loading`. -/
def apiCall {T : Type} : FetchOutcome T → ApiOutcome T
  | .netFailure (some m) => ⟨none, some ⟨.error, m⟩, false⟩
  | .netFailure none => ⟨none, some ⟨.error, "Request failed"⟩, false⟩
  | .okResponse (.parsed t) => ⟨some t, none, false⟩
  | .okResponse (.parseFailed m) => ⟨none, some ⟨.error, m⟩, false⟩
  | .errResponse s b => ⟨none, some ⟨.error, errorText s b⟩, false⟩

/-- Whether the `fetch` outcome is anything other than an ok response with a
parsable body — exactly the cases in which `apiCall` reaches its `catch`. -/
def failed {T : Type} : FetchOutcome T → Bool
  | .okResponse (.parsed _) => false
  | _ => true

/-- Whether a parsed JSON value is an array (`Array.isArray`). -/
def isJsonArr : Zvec.Json → Bool
  | .arr _ => true
  | _ => false

/-- JS truthiness of `insertMetadata.trim()`: the trimmed string is the empty
(falsy) string exactly when every character of the field is whitespace. -/
def trimmedEmpty (s : String) : Bool := s.toList.all Char.isWhitespace

/-- Embedded from `page.tsx` 93-123: the request-building part of
`handleInsert`.  `vecParse` is the outcome of `JSON.parse(insertVector)`
(`none` = threw), `metaRaw` is the raw metadata field, `metaParse` the outcome
of `JSON.parse(insertMetadata)`.  Returns the JSON object sent as the body of
`POST /documents`, as a key/value list (`JSON.stringify` drops the `metadata`
key while it is `undefined`), or `none` when no request is sent. -/
def handleInsertBody (vecParse : Option Zvec.Json) (metaRaw : String)
    (metaParse : Option Zvec.Json) : Option (List (String × Zvec.Json)) :=
  match vecParse with
  | none => none
  | some v =>
    if isJsonArr v then
      if trimmedEmpty metaRaw then some [("vector", v)]
      else
        match metaParse with
        | none => none
        | some m => some [("vector", v), ("metadata", m)]
    else none

/-- One step of `parseFloat(v.toFixed(4))` for `v ∈ [0, 1)`: round to four
decimal places, ties away from zero (the `toFixed` rule picks the larger
candidate). -/
def round4 (v : ℚ) : ℚ := (⌊v * 10000 + 1 / 2⌋ : ℚ) / 10000

/-- Embedded from `page.tsx` 126-129: `generateRandomVector` over the list of
`Math.random()` draws (one per dimension): each draw is rounded to four decimal
places. -/
def generateRandomVector (rand : List ℚ) : List ℚ := rand.map round4

end ZvecUI

namespace Zvec

/-! ### Helper lemmas about the store operations -/

theorem hasId_false_iff {st : Store} {i : String} :
    hasId st i = false ↔ i ∉ st.docs.map Document.id := by
  rw [← Bool.not_eq_true]
  unfold hasId
  rw [List.any_eq_true]
  simp only [beq_iff_eq, List.mem_map]

theorem insert_ok_cases {st st' : Store} {v : List ℚ} {md : Option Metadata}
    {oid : Option String} {fresh i : String}
    (h : insert st v md oid fresh = .ok (i, st')) :
    i = oid.getD fresh ∧ hasId st i = false ∧
      st' = ⟨some v.length, ⟨i, v, md⟩ :: st.docs⟩ ∧
      (st.dimension = none ∨ st.dimension = some v.length) := by
  unfold insert at h
  split at h
  · exact absurd h (by simp)
  · next hdup =>
    rw [Bool.not_eq_true] at hdup
    split at h
    · next hdim =>
      rw [Except.ok.injEq, Prod.mk.injEq] at h
      obtain ⟨rfl, rfl⟩ := h
      exact ⟨rfl, hdup, rfl, Or.inl hdim⟩
    · next d hdim =>
      split at h
      · next hlen =>
        rw [Except.ok.injEq, Prod.mk.injEq] at h
        obtain ⟨rfl, rfl⟩ := h
        exact ⟨rfl, hdup, by rw [hlen], Or.inr (by rw [hdim, hlen])⟩
      · exact absurd h (by simp)

theorem insert_error_dup {st : Store} {v : List ℚ} {md : Option Metadata}
    {oid : Option String} {fresh : String} (h : hasId st (oid.getD fresh) = true) :
    insert st v md oid fresh = .error .DuplicateIdError := by
  unfold insert
  rw [if_pos h]

theorem insert_error_dim {st : Store} {v : List ℚ} {md : Option Metadata}
    {oid : Option String} {fresh : String} {d : Nat}
    (hdup : hasId st (oid.getD fresh) = false) (hd : st.dimension = some d)
    (hv : v.length ≠ d) :
    insert st v md oid fresh = .error .DimensionMismatchError := by
  unfold insert
  rw [hd]
  simp [hdup, hv]

theorem insert_wf {st st' : Store} {v : List ℚ} {md : Option Metadata}
    {oid : Option String} {fresh i : String}
    (hwf : Wf st) (h : insert st v md oid fresh = .ok (i, st')) : Wf st' := by
  obtain ⟨-, hdup, rfl, hdim⟩ := insert_ok_cases h
  constructor
  · intro d hd
    rcases List.mem_cons.1 hd with rfl | hd
    · rfl
    · have := hwf.1 d hd
      rcases hdim with h0 | h0 <;> rw [h0] at this
      · exact absurd this (by simp)
      · simpa using this
  · refine List.nodup_cons.2 ⟨?_, hwf.2⟩
    exact hasId_false_iff.1 hdup

theorem delete_wf {st st' : Store} {i : String}
    (hwf : Wf st) (h : delete st i = .ok st') : Wf st' := by
  unfold delete at h
  split at h
  · obtain rfl : _ = st' := by simpa using h
    constructor
    · intro d hd
      exact hwf.1 d ((st.docs.eraseP_sublist).subset hd)
    · exact List.Nodup.sublist ((st.docs.eraseP_sublist).map Document.id) hwf.2
  · exact absurd h (by simp)

theorem batch_wf {st : Store} (items : List InsertReq) (hwf : Wf st) :
    Wf (batchInsert st items).1 := by
  induction items generalizing st with
  | nil => exact hwf
  | cons r rs ih =>
    unfold batchInsert
    cases h : insert st r.vector r.metadata r.id r.fresh with
    | ok p => exact ih (insert_wf hwf h)
    | error e => exact ih hwf

theorem reachable_wf {st : Store} (h : Reachable st) : Wf st := by
  induction h with
  | init => exact ⟨by simp [emptyStore], by simp [emptyStore]⟩
  | insert_ok _ hins ih => exact insert_wf ih hins
  | batch_ok _ ih => exact batch_wf _ ih
  | delete_ok _ hdel ih => exact delete_wf ih hdel
  | cleared _ _ => exact ⟨by simp [clear, emptyStore], by simp [clear, emptyStore]⟩

/-! ### Persistence round-trip lemmas -/

theorem decodeNums_roundtrip : ∀ v : List ℚ, decodeNums (v.map Json.num) = .ok v
  | [] => rfl
  | q :: qs => by
    show decodeNums (Json.num q :: qs.map Json.num) = _
    unfold decodeNums
    rw [decodeNums_roundtrip qs]
    rfl

theorem decodeMeta_roundtrip : ∀ m : Option Metadata, decodeMeta (encodeMeta m) = .ok m
  | none => rfl
  | some _ => rfl

theorem decodeDoc_roundtrip (d : Document) : decodeDoc (encodeDoc d) = .ok d := by
  obtain ⟨i, v, m⟩ := d
  show decodeDoc (.arr [.str i, .arr (v.map Json.num), encodeMeta m]) = _
  simp only [decodeDoc]
  rw [decodeNums_roundtrip, decodeMeta_roundtrip]
  rfl

theorem decodeDocs_roundtrip : ∀ ds : List Document, decodeDocs (ds.map encodeDoc) = .ok ds
  | [] => rfl
  | d :: ds => by
    show decodeDocs (encodeDoc d :: ds.map encodeDoc) = _
    unfold decodeDocs
    rw [decodeDoc_roundtrip, decodeDocs_roundtrip ds]
    rfl

theorem decodeDim_roundtrip : ∀ o : Option Nat, decodeDim (encodeDim o) = .ok o
  | none => rfl
  | some d => by
    show decodeDim (.num (d : ℚ)) = _
    simp only [decodeDim]
    rw [if_pos (by simp)]
    simp

theorem load_persist (st : Store) : load (persist st) = .ok st := by
  show load (.arr [encodeDim st.dimension, .arr (st.docs.map encodeDoc)]) = _
  simp only [load]
  rw [decodeDim_roundtrip, decodeDocs_roundtrip]
  rfl

theorem find?_eraseP_none {i : String} :
    ∀ docs : List Document, (docs.map Document.id).Nodup →
      (docs.eraseP (fun d => d.id == i)).find? (fun d => d.id == i) = none
  | [], _ => rfl
  | d :: t, h => by
    rw [List.map_cons, List.nodup_cons] at h
    by_cases hd : d.id = i
    · rw [List.eraseP_cons_of_pos (by simp [hd])]
      rw [List.find?_eq_none]
      intro a ha
      simp only [beq_iff_eq]
      intro hai
      have hmem : a.id ∈ t.map Document.id := List.mem_map_of_mem _ ha
      rw [hai, ← hd] at hmem
      exact h.1 hmem
    · rw [List.eraseP_cons_of_neg (by simp [hd]),
        List.find?_cons_of_neg _ (by simp [hd])]
      exact find?_eraseP_none t h.2

theorem applyInserts_count {reqs : List InsertReq} :
    ∀ {st st' : Store}, applyInserts st reqs = .ok st' →
      documentCount st' = documentCount st + reqs.length := by
  induction reqs with
  | nil =>
    intro st st' h
    obtain rfl : st = st' := by simpa [applyInserts] using h
    simp
  | cons r rs ih =>
    intro st st' h
    unfold applyInserts at h
    split at h
    · next i st₁ hins =>
      obtain ⟨-, -, rfl, -⟩ := insert_ok_cases hins
      have := ih h
      simp only [documentCount, List.length_cons] at this ⊢
      omega
    · exact absurd h (by simp)

/-! ### Claim theorems for the core (spec-modelled) -/

/-- Claim C4: after any sequence of N successful inserts, persisting the
collection and then reloading it from the durable state (as on a service
restart) yields a collection equal to the in-memory one — the same N documents
with identical ids, vectors and metadata. -/
theorem durability_roundtrip (reqs : List InsertReq) (st : Store)
    (h : applyInserts emptyStore reqs = .ok st) :
    load (persist st) = .ok st ∧ documentCount st = reqs.length := by
  refine ⟨load_persist st, ?_⟩
  have := applyInserts_count h
  simpa [emptyStore, documentCount] using this

/-- Witness for C4: two successful inserts (one with metadata), a persist and a
reload, recovering both documents exactly. -/
theorem durability_roundtrip_witness :
    Zvec.load (Zvec.persist ⟨some 1,
        [⟨"b", [(1 : ℚ)], none⟩, ⟨"a", [(0 : ℚ)], some [("t", .str "x")]⟩]⟩)
      = .ok ⟨some 1,
        [⟨"b", [(1 : ℚ)], none⟩, ⟨"a", [(0 : ℚ)], some [("t", .str "x")]⟩]⟩ ∧
    Zvec.documentCount ⟨some 1,
        [⟨"b", [(1 : ℚ)], none⟩, ⟨"a", [(0 : ℚ)], some [("t", .str "x")]⟩]⟩ = 2 :=
  durability_roundtrip
    [⟨[(0 : ℚ)], some [("t", .str "x")], some "a", "g"⟩,
     ⟨[(1 : ℚ)], none, some "b", "h"⟩] _ rfl

/-- Claim C5: inserting under a caller-supplied id that is already present
fails with `DuplicateIdError` and produces no new store (so the existing
document and the rest of the store are untouched), and in every reachable
state at most one live document exists per id. -/
theorem duplicate_id_insert (st : Store) (v : List ℚ) (md : Option Metadata)
    (o fresh : String) (h : hasId st o = true) :
    insert st v md (some o) fresh = .error .DuplicateIdError ∧
    (∀ r, insert st v md (some o) fresh ≠ .ok r) ∧
    (Reachable st → (st.docs.map Document.id).Nodup) := by
  have h1 : insert st v md (some o) fresh = .error .DuplicateIdError :=
    insert_error_dup h
  refine ⟨h1, ?_, fun hr => (reachable_wf hr).2⟩
  intro r hcontra
  rw [h1] at hcontra
  exact Except.noConfusion hcontra

/-- Witness for C5: re-inserting the already-present id "a" fails with
`DuplicateIdError`. -/
theorem duplicate_id_insert_witness :
    Zvec.insert ⟨some 1, [⟨"a", [(0 : ℚ)], none⟩]⟩ [(5 : ℚ)] none (some "a") "g"
      = .error .DuplicateIdError :=
  (duplicate_id_insert ⟨some 1, [⟨"a", [(0 : ℚ)], none⟩]⟩ [(5 : ℚ)] none "a" "g"
    rfl).1

/-- Claim C6: deleting a present id succeeds, after which `get` reports
not-found and the document count has decreased by exactly one; deleting an
absent id is reported as `NotFoundError`, never as success. -/
theorem delete_semantics (st : Store) (i : String) (h : Reachable st) :
    (hasId st i = true →
      ∃ st', delete st i = .ok st' ∧ get st' i = none ∧
        documentCount st = documentCount st' + 1) ∧
    (hasId st i = false → delete st i = .error .NotFoundError) := by
  have hwf := reachable_wf h
  constructor
  · intro hin
    refine ⟨⟨st.dimension, st.docs.eraseP (fun d => d.id == i)⟩, ?_, ?_, ?_⟩
    · unfold delete
      rw [hin]
      rfl
    · exact find?_eraseP_none st.docs hwf.2
    · obtain ⟨d, hd, hdi⟩ := List.any_eq_true.1 hin
      simp only [documentCount]
      rw [List.length_eraseP_of_mem hd hdi]
      have : 1 ≤ st.docs.length := List.length_pos_of_mem hd
      omega
  · intro hout
    unfold delete
    rw [hout]
    rfl

/-- A small reachable collection used by witnesses: the state after inserting
vector [0] under id "a" into the empty collection. -/
theorem reachable_example :
    Reachable (⟨some 1, [⟨"a", [(0 : ℚ)], none⟩]⟩ : Store) :=
  @Reachable.insert_ok emptyStore ⟨some 1, [⟨"a", [(0 : ℚ)], none⟩]⟩
    [(0 : ℚ)] none (some "a") "g" "a" Reachable.init rfl

/-- Witness for C6: deleting the present id "a" from a reachable one-document
collection empties it, and deleting the absent id "z" reports not-found. -/
theorem delete_semantics_witness :
    (∃ st', Zvec.delete ⟨some 1, [⟨"a", [(0 : ℚ)], none⟩]⟩ "a" = .ok st' ∧
      Zvec.get st' "a" = none ∧
      Zvec.documentCount ⟨some 1, [⟨"a", [(0 : ℚ)], none⟩]⟩
        = Zvec.documentCount st' + 1) ∧
    Zvec.delete ⟨some 1, [⟨"a", [(0 : ℚ)], none⟩]⟩ "z" = .error .NotFoundError :=
  ⟨(delete_semantics ⟨some 1, [⟨"a", [(0 : ℚ)], none⟩]⟩ "a" reachable_example).1 rfl,
   (delete_semantics ⟨some 1, [⟨"a", [(0 : ℚ)], none⟩]⟩ "z" reachable_example).2 rfl⟩

theorem search_empty_aux (st : Store) (q : List ℚ) (k : Nat)
    (h : st.dimension = none ∨ st.docs = []) :
    search st q k = .ok [] := by
  unfold search
  rcases h with h | h
  · rw [h]
  · cases hd : st.dimension with
    | none => rfl
    | some d => simp [h]

/-- Claim C7: searching an empty or UNINITIALIZED collection returns the empty
result sequence for every query and every k, never an error. -/
theorem empty_search (st : Store) (q : List ℚ) (k : Nat)
    (h : st.dimension = none ∨ st.docs = []) :
    search st q k = .ok [] :=
  search_empty_aux st q k h

/-- Witness for C7: a search against the UNINITIALIZED collection and against
an ACTIVE-but-empty collection both return the empty result sequence. -/
theorem empty_search_witness :
    Zvec.search Zvec.emptyStore [(3 : ℚ), 4] 5 = .ok [] ∧
    Zvec.search ⟨some 3, []⟩ [(1 : ℚ)] 2 = .ok [] :=
  ⟨empty_search _ _ _ (Or.inl rfl), empty_search _ _ _ (Or.inr rfl)⟩

/-- Counterexample to C1 as stated: in the reachable dimension-1 collection
holding document "a", inserting a length-2 vector under the already-present id
"a" fails — but with `DuplicateIdError` (the duplicate check fires first, as
§4.1 lists it), not with `DimensionMismatchError` as the claim demands of
every wrong-length insert. -/
theorem dimension_mismatch_counterexample :
    insert emptyStore [(0 : ℚ)] none (some "a") "g"
      = .ok ("a", ⟨some 1, [⟨"a", [(0 : ℚ)], none⟩]⟩) ∧
    (⟨some 1, [⟨"a", [(0 : ℚ)], none⟩]⟩ : Store).dimension = some 1 ∧
    List.length [(0 : ℚ), 0] ≠ 1 ∧
    insert ⟨some 1, [⟨"a", [(0 : ℚ)], none⟩]⟩ [(0 : ℚ), 0] none (some "a") "g2"
      = .error .DuplicateIdError ∧
    insert ⟨some 1, [⟨"a", [(0 : ℚ)], none⟩]⟩ [(0 : ℚ), 0] none (some "a") "g2"
      ≠ .error .DimensionMismatchError := by
  refine ⟨rfl, rfl, by decide, rfl, ?_⟩
  intro hcontra
  rw [show insert ⟨some 1, [⟨"a", [(0 : ℚ)], none⟩]⟩ [(0 : ℚ), 0] none
      (some "a") "g2" = .error .DuplicateIdError from rfl] at hcontra
  exact absurd (Except.error.inj hcontra) (by decide)

/-- Claim C1 (amended): in every reachable collection state all stored vectors
have length equal to the collection's fixed dimension; an insert whose vector
length differs from the dimension never succeeds — the store is unchanged —
and it fails with `DimensionMismatchError` whenever its target id is not
already present (when the id is a duplicate, the duplicate check fires first
and reports `DuplicateIdError` instead). -/
theorem dimension_invariant (st : Store) (h : Reachable st) :
    (∀ d ∈ st.docs, st.dimension = some d.vector.length) ∧
    (∀ (v : List ℚ) (md : Option Metadata) (oid : Option String)
        (fresh : String) (dim : Nat), st.dimension = some dim → v.length ≠ dim →
      (∀ r, insert st v md oid fresh ≠ .ok r) ∧
      (hasId st (oid.getD fresh) = false →
        insert st v md oid fresh = .error .DimensionMismatchError)) := by
  refine ⟨(reachable_wf h).1, ?_⟩
  intro v md oid fresh dim hdim hv
  constructor
  · intro r hcontra
    obtain ⟨i, st'⟩ := r
    obtain ⟨-, -, -, hcase⟩ := insert_ok_cases hcontra
    rcases hcase with h0 | h0 <;> rw [hdim] at h0
    · exact Option.noConfusion h0
    · exact hv (Option.some.inj h0).symm
  · intro hdup
    exact insert_error_dim hdup hdim hv

/-- Witness for C1 (amended): inserting a length-2 vector under the fresh id
"b" into the reachable dimension-1 collection fails with
`DimensionMismatchError`. -/
theorem dimension_invariant_witness :
    insert ⟨some 1, [⟨"a", [(0 : ℚ)], none⟩]⟩ [(0 : ℚ), 0] none (some "b") "g2"
      = .error .DimensionMismatchError :=
  ((dimension_invariant ⟨some 1, [⟨"a", [(0 : ℚ)], none⟩]⟩ reachable_example).2
    [(0 : ℚ), 0] none (some "b") "g2" 1 rfl (by decide)).2 rfl

/-- A reachable two-document collection used by the search witnesses. -/
theorem reachable_example2 :
    Reachable (⟨some 1, [⟨"b", [(1 : ℚ)], none⟩, ⟨"a", [(0 : ℚ)], none⟩]⟩ : Store) :=
  @Reachable.insert_ok ⟨some 1, [⟨"a", [(0 : ℚ)], none⟩]⟩
    ⟨some 1, [⟨"b", [(1 : ℚ)], none⟩, ⟨"a", [(0 : ℚ)], none⟩]⟩
    [(1 : ℚ)] none (some "b") "h" "b" reachable_example rfl

theorem sKey_of_rLE_ne {a b : SearchResult} (h1 : rLE a b) (h2 : a.id ≠ b.id) :
    sKey a b := by
  rcases h1 with h | ⟨hs, hle⟩
  · exact Or.inl h
  · exact Or.inr ⟨hs, lt_of_le_of_ne hle h2⟩

/-- Claim C2: for every reachable collection state, query of the collection's
dimension and positive k, search succeeds, returns exactly
min(k, document_count) results, and no returned result has a worse
(larger-distance) score than any document not returned. -/
theorem topk_bound (st : Store) (q : List ℚ) (k : Nat) (h : Reachable st)
    (hk : 0 < k) (hq : ∀ d, st.dimension = some d → q.length = d) :
    ∃ res, search st q k = .ok res ∧
      res.length = min k (documentCount st) ∧
      ∀ r ∈ res, ∀ doc ∈ st.docs, (∀ r' ∈ res, r'.id ≠ doc.id) →
        r.score ≤ sqDist q doc.vector := by
  have hwf := reachable_wf h
  cases hd : st.dimension with
  | none =>
    have hnil : st.docs = [] := by
      cases hdocs : st.docs with
      | nil => rfl
      | cons d t =>
        have := hwf.1 d (by rw [hdocs]; exact List.mem_cons_self d t)
        rw [hd] at this
        exact Option.noConfusion this
    refine ⟨[], search_empty_aux st q k (Or.inl hd), ?_, by simp⟩
    simp [documentCount, hnil]
  | some dim =>
    by_cases hE : st.docs = []
    · refine ⟨[], search_empty_aux st q k (Or.inr hE), ?_, by simp⟩
      simp [documentCount, hE]
    · have hq' : q.length = dim := hq dim hd
      have hsearch : search st q k = .ok ((rankAll q st.docs).take k) := by
        unfold search
        rw [hd]
        simp [List.isEmpty_iff, hE, hq']
      refine ⟨_, hsearch, ?_, ?_⟩
      · rw [List.length_take, rankAll, List.length_insertionSort, List.length_map]
        rfl
      · intro r hr doc hdoc hnot
        have hsorted : List.Sorted rLE (rankAll q st.docs) :=
          List.sorted_insertionSort rLE _
        have hmem : scoreOf q doc ∈ rankAll q st.docs := by
          rw [rankAll, List.mem_insertionSort]
          exact List.mem_map_of_mem _ hdoc
        have hsplit : scoreOf q doc ∈ (rankAll q st.docs).take k ∨
            scoreOf q doc ∈ (rankAll q st.docs).drop k := by
          rw [← List.mem_append, List.take_append_drop]
          exact hmem
        rcases hsplit with hin | hin
        · exact absurd rfl (hnot _ hin)
        · rcases hsorted.rel_of_mem_take_of_mem_drop hr hin with h1 | ⟨h1, -⟩
          · exact le_of_lt h1
          · exact le_of_eq h1

/-- Witness for C2: searching the reachable two-document dimension-1
collection with query [0] and k = 1 returns exactly one result, and it is at
least as close as the non-returned document. -/
theorem topk_bound_witness :
    ∃ res, search ⟨some 1, [⟨"b", [(1 : ℚ)], none⟩, ⟨"a", [(0 : ℚ)], none⟩]⟩
        [(0 : ℚ)] 1 = .ok res ∧
      res.length = min 1 (documentCount
        ⟨some 1, [⟨"b", [(1 : ℚ)], none⟩, ⟨"a", [(0 : ℚ)], none⟩]⟩) ∧
      ∀ r ∈ res, ∀ doc ∈ (⟨some 1, [⟨"b", [(1 : ℚ)], none⟩,
          ⟨"a", [(0 : ℚ)], none⟩]⟩ : Store).docs,
        (∀ r' ∈ res, r'.id ≠ doc.id) → r.score ≤ sqDist [(0 : ℚ)] doc.vector :=
  topk_bound _ _ _ reachable_example2 (by decide)
    (fun d hd => by obtain rfl := Option.some.inj hd; rfl)

/-- Claim C3: search is deterministic for a fixed state, query and k — the
returned sequence is strictly ordered by score with ties broken by id
(`sKey`), and every permutation of it that is sorted by the ranking order
(`rLE`), i.e. the outcome of any other conforming invocation over the same
state and query, is equal to it, tie-break order included. -/
theorem search_deterministic (st : Store) (q : List ℚ) (k : Nat)
    (res : List SearchResult) (h : Reachable st)
    (hok : search st q k = .ok res) :
    res.Pairwise sKey ∧ ∀ l, l.Perm res → l.Pairwise rLE → l = res := by
  have hwf := reachable_wf h
  have hperm : List.Perm (rankAll q st.docs) (st.docs.map (scoreOf q)) :=
    List.perm_insertionSort rLE _
  have hmapids : (st.docs.map (scoreOf q)).map SearchResult.id
      = st.docs.map Document.id := by
    rw [List.map_map]
    rfl
  have hids : ((rankAll q st.docs).map SearchResult.id).Nodup := by
    refine ((hperm.map SearchResult.id).symm).nodup ?_
    rw [hmapids]
    exact hwf.2
  have hpairAll : (rankAll q st.docs).Pairwise sKey := by
    have h1 : (rankAll q st.docs).Pairwise rLE := List.sorted_insertionSort rLE _
    have h2 : (rankAll q st.docs).Pairwise (fun a b => a.id ≠ b.id) :=
      List.pairwise_map.1 hids
    exact (h1.and h2).imp (fun hab => sKey_of_rLE_ne hab.1 hab.2)
  unfold search at hok
  split at hok
  · obtain rfl : [] = res := Except.ok.inj hok
    exact ⟨List.Pairwise.nil, fun l hl _ => hl.eq_nil⟩
  · split at hok
    · obtain rfl : [] = res := Except.ok.inj hok
      exact ⟨List.Pairwise.nil, fun l hl _ => hl.eq_nil⟩
    · split at hok
      · obtain rfl : (rankAll q st.docs).take k = res := Except.ok.inj hok
        have hpairRes : ((rankAll q st.docs).take k).Pairwise sKey :=
          List.Pairwise.sublist (List.take_sublist k _) hpairAll
        refine ⟨hpairRes, ?_⟩
        intro l hl hlp
        have hresids : (((rankAll q st.docs).take k).map SearchResult.id).Nodup :=
          List.Nodup.sublist ((List.take_sublist k _).map SearchResult.id) hids
        have hlids : (l.map SearchResult.id).Nodup :=
          ((hl.map SearchResult.id).symm).nodup hresids
        have hlpair : l.Pairwise sKey :=
          (hlp.and (List.pairwise_map.1 hlids)).imp
            (fun hab => sKey_of_rLE_ne hab.1 hab.2)
        exact List.eq_of_perm_of_sorted hl hlpair hpairRes
      · exact Except.noConfusion hok

/-- Witness for C3: the concrete search over the reachable two-document
collection returns [a] with its strict ordering, and the only rLE-sorted
permutation of it is itself. -/
theorem search_deterministic_witness :
    search ⟨some 1, [⟨"b", [(1 : ℚ)], none⟩, ⟨"a", [(0 : ℚ)], none⟩]⟩
      [(0 : ℚ)] 1 = .ok [⟨"a", 0, none⟩] ∧
    ([⟨"a", (0 : ℚ), none⟩] : List SearchResult).Pairwise sKey ∧
    ∀ l, l.Perm [(⟨"a", (0 : ℚ), none⟩ : SearchResult)] → l.Pairwise rLE →
      l = [⟨"a", 0, none⟩] := by
  have hok : search ⟨some 1, [⟨"b", [(1 : ℚ)], none⟩, ⟨"a", [(0 : ℚ)], none⟩]⟩
      [(0 : ℚ)] 1 = .ok [⟨"a", 0, none⟩] := by
    simp only [search, rankAll, scoreOf, sqDist, List.insertionSort,
      List.orderedInsert, List.map_cons, List.map_nil]
    norm_num [rLE]
  exact ⟨hok,
    (search_deterministic _ _ _ _ reachable_example2 hok).1,
    (search_deterministic _ _ _ _ reachable_example2 hok).2⟩

end Zvec

namespace ZvecUI

/-! ### Claim theorems for the UI (embedded from page.tsx) -/

/-- Claim C8: `apiCall` never throws to its caller — it is total over every
fetch outcome and always ends with `loading = false`; whenever the fetch
failed, the HTTP status was non-ok, or a body was unparsable, it returns null
and sets an error status message; on a parsed ok response it returns the
parsed value. -/
theorem apicall_never_throws {T : Type} (o : FetchOutcome T) :
    (apiCall o).loading = false ∧
    (failed o = true →
      (apiCall o).result = none ∧
      ∃ m, (apiCall o).status = some ⟨.error, m⟩) ∧
    (failed o = false →
      ∃ t, o = .okResponse (.parsed t) ∧ apiCall o = ⟨some t, none, false⟩) := by
  cases o with
  | netFailure m =>
    cases m with
    | none => exact ⟨rfl, fun _ => ⟨rfl, "Request failed", rfl⟩, fun h => Bool.noConfusion h⟩
    | some s => exact ⟨rfl, fun _ => ⟨rfl, s, rfl⟩, fun h => Bool.noConfusion h⟩
  | okResponse b =>
    cases b with
    | parsed t => exact ⟨rfl, fun h => Bool.noConfusion h, fun _ => ⟨t, rfl, rfl⟩⟩
    | parseFailed m => exact ⟨rfl, fun _ => ⟨rfl, m, rfl⟩, fun h => Bool.noConfusion h⟩
  | errResponse s b =>
    exact ⟨rfl, fun _ => ⟨rfl, errorText s b, rfl⟩, fun h => Bool.noConfusion h⟩

/-- Witness for C8: on a 500 response with unparsable body, `apiCall` returns
null, sets an error status and resets loading. -/
theorem apicall_never_throws_witness :
    (apiCall (FetchOutcome.errResponse 500 ErrBody.parseFailed :
        FetchOutcome Nat)).loading = false ∧
    (apiCall (FetchOutcome.errResponse 500 ErrBody.parseFailed :
        FetchOutcome Nat)).result = none ∧
    ∃ m, (apiCall (FetchOutcome.errResponse 500 ErrBody.parseFailed :
        FetchOutcome Nat)).status = some ⟨.error, m⟩ :=
  ⟨(apicall_never_throws
      (FetchOutcome.errResponse 500 ErrBody.parseFailed : FetchOutcome Nat)).1,
   ((apicall_never_throws
      (FetchOutcome.errResponse 500 ErrBody.parseFailed : FetchOutcome Nat)).2.1 rfl).1,
   ((apicall_never_throws
      (FetchOutcome.errResponse 500 ErrBody.parseFailed : FetchOutcome Nat)).2.1 rfl).2⟩

/-- Claim C9: every insert request body the UI builds for POST /documents
holds exactly the vector key (plus the metadata key when metadata was given)
and never an id key — so a document inserted through the UI gets the
store-generated id — and no request at all is sent when the vector field does
not parse as a JSON array. -/
theorem insert_body_no_id (vp : Option Zvec.Json) (mr : String)
    (mp : Option Zvec.Json) :
    (∀ body, handleInsertBody vp mr mp = some body →
      (body.map Prod.fst = ["vector"] ∨
        body.map Prod.fst = ["vector", "metadata"]) ∧
      "id" ∉ body.map Prod.fst) ∧
    ((∀ j, vp = some j → isJsonArr j = false) →
      handleInsertBody vp mr mp = none) ∧
    (∀ (st : Zvec.Store) (v : List ℚ) (md : Option Zvec.Metadata)
        (fresh i : String) (st' : Zvec.Store),
      Zvec.insert st v md none fresh = .ok (i, st') →
      i = fresh ∧ Zvec.get st' fresh = some ⟨fresh, v, md⟩) := by
  refine ⟨?_, ?_, ?_⟩
  · intro body hbody
    cases vp with
    | none => simp [handleInsertBody] at hbody
    | some v =>
      cases harr : isJsonArr v with
      | false => simp [handleInsertBody, harr] at hbody
      | true =>
        cases hmr : trimmedEmpty mr with
        | true =>
          simp [handleInsertBody, harr, hmr] at hbody
          subst hbody
          exact ⟨Or.inl rfl, by simp⟩
        | false =>
          cases mp with
          | none => simp [handleInsertBody, harr, hmr] at hbody
          | some m =>
            simp [handleInsertBody, harr, hmr] at hbody
            subst hbody
            exact ⟨Or.inr rfl, by simp⟩
  · intro hna
    cases vp with
    | none => rfl
    | some j =>
      have hj := hna j rfl
      simp [handleInsertBody, hj]
  · intro st v md fresh i st' hins
    obtain ⟨hi, -, rfl, -⟩ := Zvec.insert_ok_cases hins
    subst hi
    refine ⟨rfl, ?_⟩
    simp [Zvec.get]

/-- Witness for C9: a parsed-array vector with empty metadata yields the body
with exactly the vector key; a non-array vector value yields no request. -/
theorem insert_body_no_id_witness :
    ((([("vector", Zvec.Json.arr [])] : List (String × Zvec.Json)).map Prod.fst
        = ["vector"] ∨
      ([("vector", Zvec.Json.arr [])] : List (String × Zvec.Json)).map Prod.fst
        = ["vector", "metadata"]) ∧
     "id" ∉ ([("vector", Zvec.Json.arr [])] :
        List (String × Zvec.Json)).map Prod.fst) ∧
    handleInsertBody (some (.str "x")) "" none = none :=
  ⟨(insert_body_no_id (some (.arr [])) "" none).1 [("vector", .arr [])]
     (by simp [handleInsertBody, isJsonArr, trimmedEmpty]),
   (insert_body_no_id (some (.str "x")) "" none).2.1
     (fun j hj => by cases hj; rfl)⟩

/-- Counterexample to C10 as stated: Math.random can return 0.99999, an
in-range draw which `toFixed(4)` rounds to exactly 1 — outside the claimed
half-open interval [0, 1). -/
theorem random_vector_unit_counterexample :
    (0 : ℚ) ≤ 99999 / 100000 ∧ (99999 / 100000 : ℚ) < 1 ∧
    generateRandomVector [(99999 : ℚ) / 100000] = [1] ∧ ¬ ((1 : ℚ) < 1) := by
  refine ⟨by norm_num, by norm_num, ?_, by norm_num⟩
  show [round4 (99999 / 100000)] = [1]
  have h1 : round4 (99999 / 100000) = 1 := by
    unfold round4
    rw [show ((99999 : ℚ) / 100000 * 10000 + 1 / 2) = ((50002 : ℤ) : ℚ) / ((5 : ℕ) : ℚ)
        by norm_num]
    rw [Rat.floor_intCast_div_natCast]
    norm_num
  rw [h1]

/-- Claim C10 (amended): for every dimension d and every length-d list of
in-range Math.random draws, the generated vector has exactly d entries, each a
multiple of 1/10000 lying in the closed interval [0, 1] (rounding to four
decimal places can produce exactly 1, so the half-open interval of the
original claim does not hold). -/
theorem random_vector_bounds (d : Nat) (rand : List ℚ) (hlen : rand.length = d)
    (hr : ∀ v ∈ rand, 0 ≤ v ∧ v < 1) :
    (generateRandomVector rand).length = d ∧
    ∀ x ∈ generateRandomVector rand, 0 ≤ x ∧ x ≤ 1 ∧
      ∃ n : ℕ, n ≤ 10000 ∧ x = (n : ℚ) / 10000 := by
  refine ⟨by simpa [generateRandomVector] using hlen, ?_⟩
  intro x hx
  simp only [generateRandomVector, List.mem_map] at hx
  obtain ⟨v, hv, rfl⟩ := hx
  obtain ⟨h0, h1⟩ := hr v hv
  have harg0 : (0 : ℚ) ≤ v * 10000 + 1 / 2 := by nlinarith
  have hm0 : (0 : ℤ) ≤ ⌊v * 10000 + 1 / 2⌋ := Int.floor_nonneg.2 harg0
  have hm1 : ⌊v * 10000 + 1 / 2⌋ ≤ 10000 := by
    have harg1 : v * 10000 + 1 / 2 < ((10001 : ℤ) : ℚ) := by push_cast; nlinarith
    have := Int.floor_lt.2 harg1
    omega
  unfold round4
  refine ⟨?_, ?_, ⟨(⌊v * 10000 + 1 / 2⌋).toNat, ?_, ?_⟩⟩
  · exact div_nonneg (by exact_mod_cast hm0) (by norm_num)
  · rw [div_le_one (by norm_num)]
    exact_mod_cast hm1
  · exact Int.toNat_le.2 hm1
  · congr 1
    exact_mod_cast (Int.toNat_of_nonneg hm0).symm

/-- Witness for C10 (amended): the single draw 1/2 yields one entry, 0.5,
inside [0, 1] and a multiple of 1/10000. -/
theorem random_vector_bounds_witness :
    (generateRandomVector [(1 : ℚ) / 2]).length = 1 ∧
    ∀ x ∈ generateRandomVector [(1 : ℚ) / 2], 0 ≤ x ∧ x ≤ 1 ∧
      ∃ n : ℕ, n ≤ 10000 ∧ x = (n : ℚ) / 10000 :=
  random_vector_bounds 1 [(1 : ℚ) / 2] rfl
    (by
      intro v hv
      rw [List.mem_singleton] at hv
      subst hv
      constructor <;> norm_num)

end ZvecUI
